import Mathlib

/-!
Verification of the `agent-matrix/catalog` synchronization and validation
pipeline (`scripts/sync_mcp_servers.py`, `scripts/validate_catalog_structure.py`,
`scripts/validate_catalog_index.py`).

Embedding conventions:

* JSON manifest documents are embedded as Lean structures whose fields are
  `Option`-valued; `none` models a field that is absent *or* explicitly `null`
  (the scripts access every such field through `dict.get`, which conflates the
  two, except `dict.setdefault`, where the conflation only matters for a field
  explicitly set to `null`, which no producer in this pipeline emits).
* Python strings are Lean `String`s; the string transformations used by the
  scripts (`str.lower`, `str.strip`, `str.replace`, `str.split`, `re.sub`) are
  re-implemented below by structural recursion on the character list so that
  the kernel can evaluate them.  Case mapping and whitespace classes are the
  ASCII ones (the catalog data is ASCII).
* `datetime.now(...)` (`now_iso`) is impure; it is modeled as an explicit
  timestamp parameter `ts` threaded through the run.
* The filesystem is modeled as an insertion-ordered association list from
  relative path strings to parsed manifest documents; `write_json` is an
  association-list update plus a recorded write event.  Python `dict`s
  (`existing_by_key`, `id_to_key`, `group_to_relpaths`) are likewise modeled
  as insertion-ordered association lists, matching `dict` iteration order.
-/

namespace CatalogSync

/-! ### Python string primitives, by structural recursion over `List Char` -/

/-- ASCII whitespace recognized by Python's `str.strip()`. -/
def pyIsSpace (c : Char) : Bool :=
  c = ' ' || c = '\t' || c = '\n' || c = '\r' || c = '\x0b' || c = '\x0c'

/-- ASCII lowering, as performed by `str.lower()` on ASCII data. -/
def charLower (c : Char) : Char :=
  if 'A' ≤ c ∧ c ≤ 'Z' then Char.ofNat (c.toNat + 32) else c

/-- ASCII raising, as performed by `str.upper()` on ASCII data. -/
def charUpper (c : Char) : Char :=
  if 'a' ≤ c ∧ c ≤ 'z' then Char.ofNat (c.toNat - 32) else c

/-- Drop the longest suffix whose characters satisfy `p` (Python `rstrip`). -/
def dropRightWhile (p : Char → Bool) (l : List Char) : List Char :=
  (l.reverse.dropWhile p).reverse

/-- Drop matching characters from both ends (Python `strip`). -/
def stripWhile (p : Char → Bool) (l : List Char) : List Char :=
  dropRightWhile p (l.dropWhile p)

/-- Python `str.strip()` (whitespace on both ends). -/
def pyStrip (s : String) : String := ⟨stripWhile pyIsSpace s.data⟩

/-- Boolean list-prefix test on characters. -/
def isPrefixB : List Char → List Char → Bool
  | [], _ => true
  | _ :: _, [] => false
  | a :: as, b :: bs => if a = b then isPrefixB as bs else false

/-- Boolean list-suffix test on characters (Python `str.endswith`). -/
def isSuffixB (sfx l : List Char) : Bool := isPrefixB sfx.reverse l.reverse

/-- Split at the first occurrence of `sep`, returning the parts before and
after it, or `none` when `sep` does not occur (Python `sep in s` plus
`s.split(sep, 1)`). -/
def splitFirst (sep : List Char) : List Char → Option (List Char × List Char)
  | [] => none
  | c :: cs =>
    if isPrefixB sep (c :: cs) then some ([], (c :: cs).drop sep.length)
    else
      match splitFirst sep cs with
      | some p => some (c :: p.1, p.2)
      | none => none

/-- Replace every occurrence of the single character `c` by `rep`
(Python `str.replace` with a one-character pattern). -/
def charReplace (c : Char) (rep : List Char) : List Char → List Char
  | [] => []
  | d :: ds => if d = c then rep ++ charReplace c rep ds else d :: charReplace c rep ds

/-- Python `a or b` on an optional string field: the default is taken when the
field is absent, `null`, or the empty string (all falsy). -/
def pyStrOr (v : Option String) (d : String) : String :=
  match v with
  | some s => if s = "" then d else s
  | none => d

/-- Python truthiness of an optional string field. -/
def pyTruthy (v : Option String) : Bool :=
  match v with
  | some s => if s = "" then false else true
  | none => false

/-! ### `sync_mcp_servers.py`: small utilities -/

/-- Embeds `norm_repo_full`: normalize a GitHub repo URL to `owner/repo`. -/
def norm_repo_full (repo_url : String) : String :=
  let s1 := stripWhile pyIsSpace repo_url.data
  let s2 := dropRightWhile (fun c => c = '/') s1
  let s3 :=
    match splitFirst "github.com/".data s2 with
    | some p => p.2
    | none => s2
  let s4 := if isSuffixB ".git".data s3 then s4reduce s3 else s3
  ⟨stripWhile (fun c => c = '/') s4⟩
where
  s4reduce (l : List Char) : List Char := l.take (l.length - 4)

/-- Character allowed to survive `re.sub(r"[^a-z0-9]+", "-", s)`. -/
def isSlugChar (c : Char) : Bool :=
  decide (('a' ≤ c ∧ c ≤ 'z') ∨ ('0' ≤ c ∧ c ≤ '9'))

/-- Embeds `re.sub(r"[^a-z0-9]+", "-", s)`: each maximal run of characters
outside `[a-z0-9]` becomes a single `'-'`.  The boolean argument records
whether the previous character belonged to such a run. -/
def collapseAux : Bool → List Char → List Char
  | _, [] => []
  | inRun, c :: cs =>
    if isSlugChar c then c :: collapseAux false cs
    else if inRun then collapseAux true cs
    else '-' :: collapseAux true cs

/-- Embeds `safe_slug`: lowercase, collapse non-`[a-z0-9]` runs to `'-'`,
strip `'-'` from both ends, defaulting the empty result to `"unknown"`. -/
def safe_slug (s : String) : String :=
  let l1 := s.data.map charLower
  let l2 := collapseAux false l1
  let l3 := stripWhile (fun c => c = '-') l2
  if l3 = [] then "unknown" else ⟨l3⟩

/-- Embeds `subpath_to_variant`: build `<repo>__<subpath>` with `'/' → "__"`,
the root subpath represented as `"."`. -/
def subpath_to_variant (repo subpath : String) : String :=
  let sp1 := stripWhile pyIsSpace (subpath.data.dropWhile (fun c => c = '/'))
  let sp2 := if sp1 = [] then ['.'] else sp1
  let sp3 := charReplace '\\' ['/'] sp2
  let sp4 := charReplace '/' ['_', '_'] sp3
  repo ++ "__" ++ ⟨sp4⟩

/-- Embeds `(repo_full.split("/", 1) + ["unknown"])[:2]`, used by both
`build_group_dir` and `build_variant_dir`. -/
def splitOwnerRepo (repo_full : String) : String × String :=
  match splitFirst ['/'] repo_full.data with
  | some p => (⟨p.1⟩, ⟨p.2⟩)
  | none => (repo_full, "unknown")

/-- Embeds `build_group_dir`, reduced to the directory name it chooses under
`servers/`: `<owner-slug>-<repo-slug>`. -/
def group_dir_name (repo_full : String) : String :=
  let p := splitOwnerRepo repo_full
  safe_slug p.1 ++ "-" ++ safe_slug p.2

/-- Embeds `build_variant_dir`, reduced to the directory name it chooses inside
the group directory: `subpath_to_variant (safe_slug repo) subpath`. -/
def variant_dir_name (repo_full subpath : String) : String :=
  let p := splitOwnerRepo repo_full
  subpath_to_variant (safe_slug p.2) subpath

/-! ### Data model -/

/-- The `provenance` sub-object of a manifest (the fields the scripts read or
write; further upstream fields are irrelevant to every claim). -/
structure Provenance where
  repo_url : Option String := none
  repo : Option String := none
  source_repo : Option String := none
  subpath : Option String := none
  path : Option String := none
  source_path : Option String := none
  transport : Option String := none
  harvested_from : Option String := none
  harvested_at : Option String := none
deriving DecidableEq, Repr, Inhabited

/-- The `lifecycle` sub-object of a manifest. -/
structure Lifecycle where
  status : Option String := none
  reactivated_at : Option String := none
  deprecated_at : Option String := none
  reason : Option String := none
  replaced_by : Option (Option String) := none
deriving DecidableEq, Repr, Inhabited

/-- The `harvest` sub-object of a manifest. -/
structure HarvestInfo where
  seen_in_latest_run : Option Bool := none
  last_seen_at : Option String := none
deriving DecidableEq, Repr, Inhabited

/-- The `mcp_registration.server` sub-object of a manifest. -/
structure McpServer where
  transport : Option String := none
  url : Option String := none
  exec : Option String := none
deriving DecidableEq, Repr, Inhabited

/-- The `mcp_registration` sub-object of a manifest. -/
structure McpRegistration where
  server : Option McpServer := none
deriving DecidableEq, Repr, Inhabited

/-- A parsed manifest JSON document (the fields the scripts access). -/
structure Manifest where
  type : Option String := none
  id : Option String := none
  name : Option String := none
  provenance : Option Provenance := none
  mcp_registration : Option McpRegistration := none
  lifecycle : Option Lifecycle := none
  harvest : Option HarvestInfo := none
deriving DecidableEq, Repr, Inhabited

/-- Embeds the frozen dataclass `CatalogKey`. -/
structure CatalogKey where
  repo_full : String
  subpath : String
  transport : String
deriving DecidableEq, Repr, Inhabited

/-- Embeds `extract_source_repo_path`. -/
def extract_source_repo_path (manifest : Manifest) : String × String :=
  let prov := manifest.provenance.getD {}
  let repo_url := pyStrOr prov.repo_url (pyStrOr prov.repo (pyStrOr prov.source_repo ""))
  let repo_full := if repo_url = "" then "unknown/unknown" else norm_repo_full repo_url
  let sp := pyStrOr prov.subpath (pyStrOr prov.path (pyStrOr prov.source_path ""))
  (repo_full, ⟨sp.data.dropWhile (fun c => c = '/')⟩)

/-- Embeds `extract_transport`. -/
def extract_transport (manifest : Manifest) : String :=
  let reg := manifest.mcp_registration.getD {}
  let server := reg.server.getD {}
  let t := pyStrip ⟨(pyStrOr server.transport "").data.map charUpper⟩
  if t = "" then "UNKNOWN" else t

/-- The `CatalogKey` computed for a manifest in `main`. -/
def catalogKeyOf (manifest : Manifest) : CatalogKey :=
  let rs := extract_source_repo_path manifest
  ⟨rs.1, rs.2, extract_transport manifest⟩

/-- Embeds `mark_active_seen` (with `now_iso()` passed in as `ts`). -/
def mark_active_seen (ts : String) (manifest : Manifest) : Manifest :=
  let l0 := manifest.lifecycle.getD {}
  let l1 :=
    if l0.status = some "deprecated" then
      { l0 with status := some "active", reactivated_at := some ts }
    else l0
  let l2 := if l1.status = none then { l1 with status := some "active" } else l1
  let h0 := manifest.harvest.getD {}
  let h1 := { h0 with seen_in_latest_run := some true, last_seen_at := some ts }
  { manifest with lifecycle := some l2, harvest := some h1 }

/-- Embeds `mark_deprecated` (with `now_iso()` passed in as `ts`). -/
def mark_deprecated (ts reason : String) (manifest : Manifest) : Manifest :=
  let l0 := manifest.lifecycle.getD {}
  let l1 := if l0.status ≠ some "disabled" then { l0 with status := some "deprecated" } else l0
  let l2 := if l1.deprecated_at = none then { l1 with deprecated_at := some ts } else l1
  let l3 := { l2 with reason := some reason }
  let l4 := if l3.replaced_by = none then { l3 with replaced_by := some none } else l3
  let h0 := manifest.harvest.getD {}
  let h1 := { h0 with seen_in_latest_run := some false }
  let h2 := if h1.last_seen_at = none then { h1 with last_seen_at := some ts } else h1
  { manifest with lifecycle := some l4, harvest := some h2 }

/-- The lifecycle status the scripts read via
`(manifest.get("lifecycle") or {}).get("status")`. -/
def lifecycleStatus (manifest : Manifest) : Option String :=
  (manifest.lifecycle.getD {}).status

/-- The status string used for the top-level items of `main`
(`(manifest.get("lifecycle") or {}).get("status", "active")`). -/
def statusOrActive (manifest : Manifest) : String :=
  (lifecycleStatus manifest).getD "active"

/-! ### Association lists with Python `dict` semantics
(insertion order preserved, update in place, append when new). -/

/-- Lookup in an insertion-ordered association list. -/
def alookup {α : Type} (p : String) : List (String × α) → Option α
  | [] => none
  | (q, v) :: rest => if p = q then some v else alookup p rest

/-- Update in an insertion-ordered association list (`d[p] = v`). -/
def aupdate {α : Type} (p : String) (v : α) : List (String × α) → List (String × α)
  | [] => [(p, v)]
  | (q, w) :: rest => if p = q then (p, v) :: rest else (q, w) :: aupdate p v rest

/-- Lookup keyed by `CatalogKey` (for the per-run `id_to_key` dict the key is
the manifest id string, for `existing_by_key` it is a `CatalogKey`). -/
def klookup {α : Type} (k : CatalogKey) : List (CatalogKey × α) → Option α
  | [] => none
  | (q, v) :: rest => if k = q then some v else klookup k rest

/-- Update keyed by `CatalogKey`. -/
def kupdate {α : Type} (k : CatalogKey) (v : α) : List (CatalogKey × α) → List (CatalogKey × α)
  | [] => [(k, v)]
  | (q, w) :: rest => if k = q then (k, v) :: rest else (q, w) :: kupdate k v rest

/-- Append `v` to the list stored under `p`
(`group_to_relpaths.setdefault(group_dir, []).append(...)`). -/
def aappend (p : String) (v : String) : List (String × List String) → List (String × List String)
  | [] => [(p, [v])]
  | (q, w) :: rest => if p = q then (q, w ++ [v]) :: rest else (q, w) :: aappend p v rest

/-! ### Sorting (Python `sorted` / `list.sort`) -/

/-- Code-point comparison of strings, matching Python's `<` on `str`. -/
def strLtB (a b : String) : Bool := go a.data b.data
where
  go : List Char → List Char → Bool
    | [], [] => false
    | [], _ :: _ => true
    | _ :: _, [] => false
    | c :: cs, d :: ds => if c < d then true else if d < c then false else go cs ds

/-- Insert into a strictly sorted list, dropping duplicates
(`sorted(set(l))` is built by folding this over `l`). -/
def insertUniq (x : String) : List String → List String
  | [] => [x]
  | y :: ys =>
    if x = y then y :: ys
    else if strLtB x y then x :: y :: ys
    else y :: insertUniq x ys

/-- Embeds `sorted(set(l))` for lists of strings. -/
def sortDedup (l : List String) : List String :=
  l.foldl (fun acc x => insertUniq x acc) []

/-- Stable insertion for a `Bool`-valued "less or equal": an element is placed
after every existing element that is ≤ it, matching Python's stable sort. -/
def insertStable {α : Type} (le : α → α → Bool) (x : α) : List α → List α
  | [] => [x]
  | y :: ys => if le y x then y :: insertStable le x ys else x :: y :: ys

/-- Stable sort by repeated insertion (Python `list.sort(key=...)`). -/
def stableSort {α : Type} (le : α → α → Bool) (l : List α) : List α :=
  l.foldl (fun acc x => insertStable le x acc) []

/-! ### The run model for `sync_mcp_servers.main` -/

/-- One record of the top-level `items` audit list. -/
structure Item where
  type : String
  id : String
  name : Option String
  transport : String
  status : String
  manifest_path : String
  repo : String
  subpath : String
deriving DecidableEq, Repr, Inhabited

/-- The sort key used for `top_items`
(`(str(x.get("id") or ""), str(x.get("manifest_path") or ""))`). -/
def itemLe (a b : Item) : Bool :=
  strLtB a.id b.id || (a.id = b.id && !strLtB b.manifest_path a.manifest_path)

/-- One `write_json` call performed by the run, with its relative path. -/
inductive WriteEvent where
  | manifestFile (relPath : String) (doc : Manifest)
  | provenanceFile (relPath : String) (prov : Provenance)
  | variantIndex (relPath : String) (manifests : List String)
  | groupIndex (relPath : String) (manifests : List String)
deriving DecidableEq, Repr, Inhabited

/-- The top-level `index.json` document assembled at the end of `main`. -/
structure TopIndex where
  generated_at : String
  source_root_repo : String
  counts_total_items : Nat
  counts_active_manifests : Nat
  counts_deprecated_added : Nat
  items : List Item
  manifests : List String
deriving DecidableEq, Repr, Inhabited

/-- The fatal `SystemExit` aborts of `main`. -/
inductive RunError where
  | noManifests
  | missingId (repo_full subpath : String)
  | idCollision (id : String) (key1 key2 : CatalogKey)
deriving DecidableEq, Repr, Inhabited

/-- The mutable state of one reconciliation run. -/
structure SyncState where
  id_to_key : List (String × CatalogKey)
  seen_keys : List CatalogKey
  top_items : List Item
  active : List String
  groups : List (String × List String)
  disk : List (String × Manifest)
  writes : List WriteEvent
  deprecated_added : Nat
deriving Repr, Inhabited

/-- The group directory of a manifest, relative to the catalog root. -/
def groupRelOf (repo_full : String) : String :=
  "servers/" ++ group_dir_name repo_full

/-- The `manifest.json` destination of a harvested manifest, relative to the
catalog root (`dest_manifest.relative_to(catalog_root)`). -/
def destRelOf (manifest : Manifest) : String :=
  let rs := extract_source_repo_path manifest
  groupRelOf rs.1 ++ "/" ++ variant_dir_name rs.1 rs.2 ++ "/manifest.json"

/-- The provenance written next to the manifest: the manifest's own
`provenance` when truthy, otherwise a synthesized one. -/
def provenanceOut (ts src repo_full subpath transport : String) (manifest : Manifest) : Provenance :=
  let prov := manifest.provenance.getD {}
  if prov = {} then
    { repo_url := some ("https://github.com/" ++ repo_full)
      subpath := some subpath
      transport := some transport
      harvested_from := some src
      harvested_at := some ts }
  else prov

/-- Embeds the per-manifest body of the harvest loop of `main`
(lines 266–347 of `sync_mcp_servers.py`): skip foreign documents, mark
active/seen, enforce the id and collision guards, write the manifest,
provenance and variant index, and record bookkeeping. -/
def stepManifest (ts src : String) (st : SyncState) (m0 : Manifest) :
    Except RunError SyncState :=
  if m0.type ≠ some "mcp_server" then .ok st
  else
    let rs := extract_source_repo_path m0
    let repo_full := rs.1
    let subpath := rs.2
    let transport := extract_transport m0
    let key : CatalogKey := ⟨repo_full, subpath, transport⟩
    let m := mark_active_seen ts m0
    let mid := (pyStrOr m.id "").data
    let mid : String := ⟨stripWhile pyIsSpace mid⟩
    if mid = "" then .error (.missingId repo_full subpath)
    else
      let guard :=
        match alookup mid st.id_to_key with
        | some k1 => if k1 ≠ key then some (RunError.idCollision mid k1 key) else none
        | none => none
      match guard with
      | some e => .error e
      | none =>
        let groupRel := groupRelOf repo_full
        let variant := variant_dir_name repo_full subpath
        let destRel := groupRel ++ "/" ++ variant ++ "/manifest.json"
        let prov := provenanceOut ts src repo_full subpath transport m
        let relVariantManifest := variant ++ "/manifest.json"
        let status := statusOrActive m
        .ok
          { id_to_key := aupdate mid key st.id_to_key
            seen_keys := st.seen_keys ++ [key]
            top_items := st.top_items ++
              [{ type := "mcp_server", id := mid, name := m.name, transport := transport,
                 status := status, manifest_path := destRel,
                 repo := "https://github.com/" ++ repo_full, subpath := subpath }]
            active := if status = "active" then st.active ++ [destRel] else st.active
            groups := aappend groupRel relVariantManifest st.groups
            disk := aupdate destRel m st.disk
            writes := st.writes ++
              [.manifestFile destRel m,
               .provenanceFile (groupRel ++ "/" ++ variant ++ "/provenance.json") prov,
               .variantIndex (groupRel ++ "/" ++ variant ++ "/index.json") ["./manifest.json"]]
            deprecated_added := st.deprecated_added }

/-- Embeds `load_existing_by_key`: scan the pre-run catalog tree and map each
`mcp_server` manifest's `CatalogKey` to its file path (later files win, as in
the Python dict). -/
def existingByKey (disk0 : List (String × Manifest)) : List (CatalogKey × String) :=
  disk0.foldl
    (fun acc pm =>
      if pm.2.type ≠ some "mcp_server" then acc
      else kupdate (catalogKeyOf pm.2) pm.1 acc)
    []

/-- Embeds the deprecation loop body of `main` (lines 349–382): any pre-run
key not seen this run has its file re-read, marked deprecated, and rewritten
in place, and is appended to the audit items with status `"deprecated"`. -/
def depStep (ts src : String) (st : SyncState) (entry : CatalogKey × String) : SyncState :=
  if entry.1 ∈ st.seen_keys then st
  else
    match alookup entry.2 st.disk with
    | none => st
    | some m =>
      if m.type ≠ some "mcp_server" then st
      else
        let md := mark_deprecated ts ("Not found in latest harvest from " ++ src) m
        let rs := extract_source_repo_path md
        let mid : String := ⟨stripWhile pyIsSpace (pyStrOr md.id "").data⟩
        { st with
          disk := aupdate entry.2 md st.disk
          writes := st.writes ++ [.manifestFile entry.2 md]
          deprecated_added := st.deprecated_added + 1
          top_items := st.top_items ++
            [{ type := "mcp_server", id := mid, name := md.name,
               transport := extract_transport md, status := "deprecated",
               manifest_path := entry.2,
               repo := "https://github.com/" ++ rs.1, subpath := rs.2 }] }

/-- The full result of a reconciliation run. -/
structure RunResult where
  disk : List (String × Manifest)
  writes : List WriteEvent
  topIndex : TopIndex
deriving Repr, Inhabited

/-- Embeds the tail of `main` (lines 384–411): group indexes, deterministic
sorting, and the top-level index document. -/
def finalizeRun (ts src : String) (st : SyncState) : RunResult :=
  let groupWrites := st.groups.map
    (fun g => WriteEvent.groupIndex (g.1 ++ "/index.json") (sortDedup g.2))
  let items := stableSort itemLe st.top_items
  let manifests := sortDedup st.active
  { disk := st.disk
    writes := st.writes ++ groupWrites
    topIndex :=
      { generated_at := ts
        source_root_repo := src
        counts_total_items := items.length
        counts_active_manifests := manifests.length
        counts_deprecated_added := st.deprecated_added
        items := items
        manifests := manifests } }

/-- Embeds `main` after the external harvest call: `disk0` is the pre-run
catalog tree (parsed), `harvested` the manifests resolved and read from the
harvester's index, `ts` the run timestamp and `src` the `--source-repo`
argument.  Aborts mirror the `SystemExit` calls. -/
def runSync (ts src : String) (disk0 : List (String × Manifest))
    (harvested : List Manifest) : Except RunError RunResult :=
  if harvested = [] then .error .noManifests
  else
    let st0 : SyncState :=
      { id_to_key := [], seen_keys := [], top_items := [], active := [],
        groups := [], disk := disk0, writes := [], deprecated_added := 0 }
    match harvested.foldlM (stepManifest ts src) st0 with
    | .error e => .error e
    | .ok st1 =>
      let st2 := (existingByKey disk0).foldl (depStep ts src) st1
      .ok (finalizeRun ts src st2)

/-- A property of the run result, read conditionally: a run that aborted
satisfies it vacuously. -/
def onOk {ε α : Type} (e : Except ε α) (P : α → Prop) : Prop :=
  match e with
  | .ok a => P a
  | .error _ => True

instance {ε α : Type} (e : Except ε α) (P : α → Prop) [inst : ∀ a, Decidable (P a)] :
    Decidable (onOk e P) := by
  cases e with
  | ok a => exact inst a
  | error _ => exact .isTrue trivial

/-- A property of the run result, read strictly: the run must have completed
and the result must satisfy the property. -/
def okAnd {ε α : Type} (e : Except ε α) (P : α → Prop) : Prop :=
  match e with
  | .ok a => P a
  | .error _ => False

instance {ε α : Type} (e : Except ε α) (P : α → Prop) [inst : ∀ a, Decidable (P a)] :
    Decidable (okAnd e P) := by
  cases e with
  | ok a => exact inst a
  | error _ => exact .isFalse not_false

/-! ### `validate_catalog_structure.py`: per-manifest checks -/

/-- An optional string field that fails the required-field check
(`field not in data or data.get(field) in (None, "")`). -/
def reqFieldMissing (v : Option String) : Bool :=
  match v with
  | none => true
  | some s => s = ""

/-- Embeds the transport block of `validate_catalog_structure.main` (lines
71–86): a missing transport is a counted error; a transport outside
`SSE/STDIO/WS` only prints a warning and adds no error; for `SSE`/`WS` a
missing `server.url` and for `STDIO` a missing `server.exec` are counted. -/
def transportErrors (server : McpServer) : Nat :=
  if !pyTruthy server.transport then 1
  else
    match server.transport with
    | some t =>
      if t = "SSE" ∨ t = "WS" then (if !pyTruthy server.url then 1 else 0)
      else if t = "STDIO" then (if !pyTruthy server.exec then 1 else 0)
      else 0
    | none => 0

/-- Embeds the per-manifest error count of `validate_catalog_structure.main`
(lines 58–86): type tag, required fields, and the transport block. -/
def structureManifestErrors (data : Manifest) : Nat :=
  let eType := if data.type ≠ some "mcp_server" then 1 else 0
  let eId := if reqFieldMissing data.id then 1 else 0
  let eName := if reqFieldMissing data.name then 1 else 0
  let eReg := if data.mcp_registration = none then 1 else 0
  let server := (data.mcp_registration.getD {}).server.getD {}
  eType + eId + eName + eReg + transportErrors server

/-- Embeds the whole manifest pass of `validate_catalog_structure.main`:
errors are accumulated over every manifest, and the exit code is decided only
after the full pass (`sys.exit(1)` iff the final count is non-zero; the
missing-index and no-manifest checks are taken as satisfied). -/
def structureValidateAll (tree : List (String × Manifest)) : Nat :=
  tree.foldl (fun acc pm => acc + structureManifestErrors pm.2) 0

/-- Exit code of the structural validator on a tree with a well-formed
`index.json` and at least one manifest: non-zero iff any violation was
counted during the full pass. -/
def structureExitCode (tree : List (String × Manifest)) : Nat :=
  if structureValidateAll tree ≠ 0 then 1 else 0

/-! ### `validate_catalog_index.py`: per-entry checks -/

/-- Embeds the per-entry checks of `validate_catalog_index.main` (lines 52–66)
for an entry of `manifests[]` whose file exists and parses as `m`: the type
check and the active-only check, where a missing `lifecycle` or `status`
defaults to `"active"`. -/
def indexEntryErrors (m : Manifest) : Nat :=
  let eType := if m.type ≠ some "mcp_server" then 1 else 0
  let status := (m.lifecycle.getD {}).status.getD "active"
  let eActive := if status ≠ "active" then 1 else 0
  eType + eActive

/-! ### Derived observations used by the theorems -/

/-- The stripped manifest id (`str(manifest.get("id") or "").strip()`). -/
def midOf (manifest : Manifest) : String :=
  ⟨stripWhile pyIsSpace (pyStrOr manifest.id "").data⟩

/-- Boolean string-prefix test. -/
def startsWithB (pre s : String) : Bool := isPrefixB pre.data s.data

/-- Strict sortedness of a string list under the code-point order. -/
def strictSortedB : List String → Bool
  | [] => true
  | [_] => true
  | a :: b :: rest => strLtB a b && strictSortedB (b :: rest)

/-- No two adjacent `'-'` characters. -/
def noDoubleDash : List Char → Bool
  | [] => true
  | [_] => true
  | a :: b :: rest => if a = '-' ∧ b = '-' then false else noDoubleDash (b :: rest)

/-- The `CatalogKey`s recorded as seen by the harvest loop (one per harvested
document with the `mcp_server` type tag, in order). -/
def seenOf : List Manifest → List CatalogKey
  | [] => []
  | h :: t => if h.type = some "mcp_server" then catalogKeyOf h :: seenOf t else seenOf t

/-- The `manifest.json` destinations the harvest loop can write. -/
def destPaths : List Manifest → List String
  | [] => []
  | h :: t => if h.type = some "mcp_server" then destRelOf h :: destPaths t else destPaths t

/-- Whether an `Except` is a success. -/
def isOkB {ε α : Type} : Except ε α → Bool
  | .ok _ => true
  | .error _ => false

/-! ### Concrete documents used by counterexamples and witnesses -/

/-- A prior-run on-disk manifest whose lifecycle status is `deprecated`. -/
def c2DiskDoc : Manifest :=
  { type := some "mcp_server", id := some "x1",
    provenance := some { repo_url := some "https://github.com/acme/widget",
                         subpath := some "src/server" },
    mcp_registration := some { server := some { transport := some "STDIO",
                                                exec := some "run" } },
    lifecycle := some { status := some "deprecated", deprecated_at := some "t0",
                        reason := some "old" },
    harvest := some { seen_in_latest_run := some false, last_seen_at := some "t0" } }

/-- The freshly harvested document for the same Identity Key as `c2DiskDoc`
(no `lifecycle` object, as the harvester emits). -/
def c2HarvestDoc : Manifest :=
  { type := some "mcp_server", id := some "x1",
    provenance := some { repo_url := some "https://github.com/acme/widget",
                         subpath := some "src/server" },
    mcp_registration := some { server := some { transport := some "STDIO",
                                                exec := some "run" } } }

/-- The catalog location both documents map to. -/
def c2Path : String := "servers/acme-widget/widget__src__server/manifest.json"

/-- A prior-run on-disk manifest that is absent from the next harvest. -/
def c3OldDoc : Manifest :=
  { type := some "mcp_server", id := some "old-1",
    provenance := some { repo_url := some "https://github.com/acme/oldone" },
    mcp_registration := some { server := some { transport := some "SSE",
                                                url := some "https://e.example/sse" } },
    lifecycle := some { status := some "active" },
    harvest := some { seen_in_latest_run := some true, last_seen_at := some "t0" } }

/-- The single manifest the next harvest yields (a different Identity Key). -/
def c3NewDoc : Manifest :=
  { type := some "mcp_server", id := some "new-1",
    provenance := some { repo_url := some "https://github.com/acme/widget",
                         subpath := some "src/server" },
    mcp_registration := some { server := some { transport := some "STDIO",
                                                exec := some "run" } } }

/-- The on-disk location of `c3OldDoc`. -/
def c3Path : String := "servers/acme-oldone/oldone__./manifest.json"

/-- A manually disabled on-disk manifest at `c2Path` (same Identity Key as
`c2HarvestDoc`). -/
def c1DiskDoc : Manifest :=
  { type := some "mcp_server", id := some "x1",
    provenance := some { repo_url := some "https://github.com/acme/widget",
                         subpath := some "src/server" },
    mcp_registration := some { server := some { transport := some "STDIO",
                                                exec := some "run" } },
    lifecycle := some { status := some "disabled" },
    harvest := some { seen_in_latest_run := some true, last_seen_at := some "t0" } }

/-- A prior-run on-disk manifest for repo `acme/widget`, subpath `src/server`,
transport `SSE`: its Identity Key differs from `c3NewDoc`'s (which is `STDIO`)
but its destination path is the same `c2Path`, since destination paths ignore
the transport. -/
def c36OldDoc : Manifest :=
  { type := some "mcp_server", id := some "old-2",
    provenance := some { repo_url := some "https://github.com/acme/widget",
                         subpath := some "src/server" },
    mcp_registration := some { server := some { transport := some "SSE",
                                                url := some "https://e.example/sse" } },
    lifecycle := some { status := some "active" },
    harvest := some { seen_in_latest_run := some true, last_seen_at := some "t0" } }

end CatalogSync

namespace CatalogSync

/-! ### Association-list lemmas -/

theorem alookup_aupdate_self {α : Type} :
    ∀ (d : List (String × α)) (p : String) (v : α), alookup p (aupdate p v d) = some v
  | [], p, v => by simp [aupdate, alookup]
  | (q, w) :: rest, p, v => by
    by_cases h : p = q
    · simp [aupdate, alookup, h]
    · simp [aupdate, alookup, h, alookup_aupdate_self rest p v]

theorem alookup_aupdate_ne {α : Type} :
    ∀ (d : List (String × α)) (p q : String) (v : α), p ≠ q →
      alookup p (aupdate q v d) = alookup p d
  | [], p, q, v, h => by simp [aupdate, alookup, h]
  | (q', w) :: rest, p, q, v, h => by
    by_cases hq : q = q'
    · subst hq
      simp [aupdate, alookup, h]
    · by_cases hp : p = q'
      · simp [aupdate, alookup, hq, hp]
      · simp [aupdate, alookup, hq, hp, alookup_aupdate_ne rest p q v h]

/-! ### Sorting lemmas -/

theorem mem_insertUniq (x a : String) :
    ∀ l : List String, a ∈ insertUniq x l ↔ a = x ∨ a ∈ l
  | [] => by simp [insertUniq]
  | y :: ys => by
    by_cases h1 : x = y
    · rw [h1]
      simp [insertUniq, List.mem_cons]
    · by_cases h2 : strLtB x y
      · simp [insertUniq, h1, h2]
      · simp only [insertUniq, if_neg h1, if_neg h2, List.mem_cons, mem_insertUniq x a ys]
        tauto

theorem mem_sortDedup_aux (a : String) :
    ∀ (l acc : List String),
      (a ∈ l.foldl (fun acc x => insertUniq x acc) acc ↔ a ∈ acc ∨ a ∈ l)
  | [], acc => by simp
  | x :: t, acc => by
    simp only [List.foldl_cons, mem_sortDedup_aux a t (insertUniq x acc),
      mem_insertUniq x a acc, List.mem_cons]
    tauto

theorem mem_sortDedup (a : String) (l : List String) : a ∈ sortDedup l ↔ a ∈ l := by
  simp [sortDedup, mem_sortDedup_aux a l []]

theorem strLt_go_irrefl : ∀ l : List Char, strLtB.go l l = false
  | [] => rfl
  | c :: cs => by simp [strLtB.go, strLt_go_irrefl cs]

theorem strLt_go_total : ∀ a b : List Char, a ≠ b →
    strLtB.go a b = true ∨ strLtB.go b a = true
  | [], [], h => absurd rfl h
  | [], _ :: _, _ => Or.inl rfl
  | _ :: _, [], _ => Or.inr rfl
  | c :: cs, d :: ds, h => by
    rcases lt_trichotomy c d with hcd | hcd | hcd
    · exact Or.inl (by simp [strLtB.go, hcd])
    · subst hcd
      have hne : cs ≠ ds := fun he => h (by rw [he])
      rcases strLt_go_total cs ds hne with h1 | h1
      · exact Or.inl (by simp [strLtB.go, lt_irrefl, h1])
      · exact Or.inr (by simp [strLtB.go, lt_irrefl, h1])
    · exact Or.inr (by simp [strLtB.go, hcd])

theorem strLt_go_asymm : ∀ a b : List Char, strLtB.go a b = true → strLtB.go b a = false
  | [], [], h => by simp [strLtB.go] at h
  | [], _ :: _, _ => rfl
  | _ :: _, [], h => by simp [strLtB.go] at h
  | c :: cs, d :: ds, h => by
    rcases lt_trichotomy c d with hcd | hcd | hcd
    · simp [strLtB.go, hcd, asymm hcd]
    · subst hcd
      simp only [strLtB.go, lt_self_iff_false, if_false] at h ⊢
      exact strLt_go_asymm cs ds h
    · simp [strLtB.go, hcd, asymm hcd] at h

theorem strLtB_total (a b : String) (h : a ≠ b) : strLtB a b = true ∨ strLtB b a = true := by
  have hd : a.data ≠ b.data := fun he => h (by cases a; cases b; exact congrArg String.mk he)
  exact strLt_go_total a.data b.data hd

theorem strictSortedB_cons_iff (y : String) (l : List String) :
    strictSortedB (y :: l) = true ↔
      (strictSortedB l = true ∧ ∀ z, l.head? = some z → strLtB y z = true) := by
  cases l with
  | nil => simp [strictSortedB]
  | cons z zs =>
    simp only [strictSortedB, Bool.and_eq_true, List.head?_cons, Option.some.injEq]
    constructor
    · rintro ⟨h1, h2⟩
      exact ⟨h2, fun w hw => hw ▸ h1⟩
    · rintro ⟨h1, h2⟩
      exact ⟨h2 z rfl, h1⟩

theorem insertUniq_head (x : String) :
    ∀ l : List String, (insertUniq x l).head? = some x ∨ (insertUniq x l).head? = l.head?
  | [] => Or.inl rfl
  | y :: ys => by
    by_cases h1 : x = y
    · simp [insertUniq, h1]
    · by_cases h2 : strLtB x y
      · simp [insertUniq, h1, h2]
      · simp [insertUniq, h1, h2]

theorem strictSortedB_insertUniq (x : String) :
    ∀ l : List String, strictSortedB l = true → strictSortedB (insertUniq x l) = true
  | [], _ => by simp [insertUniq, strictSortedB]
  | y :: ys, h => by
    by_cases h1 : x = y
    · simpa [insertUniq, h1] using h
    · by_cases h2 : strLtB x y
      · simp only [insertUniq, if_neg h1, if_pos h2]
        rw [strictSortedB_cons_iff]
        refine ⟨h, fun z hz => ?_⟩
        simp only [List.head?_cons, Option.some.injEq] at hz
        subst hz
        exact h2
      · simp only [insertUniq, if_neg h1, if_neg h2]
        rw [strictSortedB_cons_iff] at h ⊢
        refine ⟨strictSortedB_insertUniq x ys h.1, fun z hz => ?_⟩
        rcases insertUniq_head x ys with hh | hh
        · rw [hz] at hh
          have hzx : z = x := by injection hh
          have hyx : strLtB y x = true := by
            rcases strLtB_total x y h1 with ht | ht
            · exact absurd ht h2
            · exact ht
          rw [hzx]
          exact hyx
        · rw [hz] at hh
          exact h.2 z hh.symm

theorem strictSortedB_sortDedup_aux :
    ∀ (l acc : List String), strictSortedB acc = true →
      strictSortedB (l.foldl (fun acc x => insertUniq x acc) acc) = true
  | [], acc, h => h
  | x :: t, acc, h =>
    strictSortedB_sortDedup_aux t (insertUniq x acc) (strictSortedB_insertUniq x acc h)

theorem strictSortedB_sortDedup (l : List String) : strictSortedB (sortDedup l) = true :=
  strictSortedB_sortDedup_aux l [] rfl

theorem mem_insertStable {α : Type} (le : α → α → Bool) (x a : α) :
    ∀ l : List α, a ∈ insertStable le x l ↔ a = x ∨ a ∈ l
  | [] => by simp [insertStable]
  | y :: ys => by
    by_cases h : le y x
    · simp only [insertStable, if_pos h, List.mem_cons, mem_insertStable le x a ys]
      tauto
    · simp only [insertStable, if_neg h, List.mem_cons]

theorem mem_stableSort_aux {α : Type} (le : α → α → Bool) (a : α) :
    ∀ (l acc : List α),
      (a ∈ l.foldl (fun acc x => insertStable le x acc) acc ↔ a ∈ acc ∨ a ∈ l)
  | [], acc => by simp
  | x :: t, acc => by
    simp only [List.foldl_cons, mem_stableSort_aux le a t (insertStable le x acc),
      mem_insertStable le x a acc, List.mem_cons]
    tauto

theorem mem_stableSort {α : Type} (le : α → α → Bool) (a : α) (l : List α) :
    a ∈ stableSort le l ↔ a ∈ l := by
  simp [stableSort, mem_stableSort_aux le a l []]

/-! ### Prefix lemmas -/

theorem isPrefixB_append : ∀ pre rest : List Char, isPrefixB pre (pre ++ rest) = true
  | [], _ => rfl
  | c :: cs, rest => by simp [isPrefixB, isPrefixB_append cs rest]

theorem isPrefixB_cons_head {c : Char} {cs l : List Char} (h : isPrefixB (c :: cs) l = true) :
    ∃ t, l = c :: t ∧ isPrefixB cs t = true := by
  cases l with
  | nil => simp [isPrefixB] at h
  | cons d ds =>
    by_cases hd : c = d
    · subst hd
      exact ⟨ds, rfl, by simpa [isPrefixB] using h⟩
    · simp [isPrefixB, hd] at h

/-! ### Characterization of the harvest-loop step -/

theorem stepManifest_ok_cases (ts src : String) (st : SyncState) (m0 : Manifest)
    (st' : SyncState) (h : stepManifest ts src st m0 = .ok st') :
    (m0.type ≠ some "mcp_server" ∧ st' = st) ∨
    (m0.type = some "mcp_server" ∧
      st'.seen_keys = st.seen_keys ++ [catalogKeyOf m0] ∧
      st'.disk = aupdate (destRelOf m0) (mark_active_seen ts m0) st.disk ∧
      (∃ its, st'.top_items = st.top_items ++ its) ∧
      (∃ ws, st'.writes = st.writes ++
          WriteEvent.manifestFile (destRelOf m0) (mark_active_seen ts m0) :: ws) ∧
      ((statusOrActive (mark_active_seen ts m0) = "active" ∧
          st'.active = st.active ++ [destRelOf m0]) ∨
        (statusOrActive (mark_active_seen ts m0) ≠ "active" ∧ st'.active = st.active))) := by
  unfold stepManifest at h
  by_cases htype : m0.type ≠ some "mcp_server"
  · left
    rw [if_pos htype] at h
    exact ⟨htype, ((Except.ok.injEq _ _).mp h).symm⟩
  · right
    rw [if_neg htype] at h
    have ht : m0.type = some "mcp_server" := not_not.mp htype
    dsimp only at h
    split at h
    · exact absurd h (by simp)
    · split at h
      · exact absurd h (by simp)
      · have hst : st' = _ := ((Except.ok.injEq _ _).mp h).symm
        subst hst
        refine ⟨ht, rfl, rfl, ⟨_, rfl⟩, ⟨_, rfl⟩, ?_⟩
        by_cases hact : statusOrActive (mark_active_seen ts m0) = "active"
        · exact Or.inl ⟨hact, by dsimp only; rw [if_pos hact]; rfl⟩
        · exact Or.inr ⟨hact, by dsimp only; rw [if_neg hact]⟩

/-! ### Harvest-fold invariants -/

theorem harvestFold_seen (ts src : String) :
    ∀ (hs : List Manifest) (st st' : SyncState),
      List.foldlM (stepManifest ts src) st hs = .ok st' →
      st'.seen_keys = st.seen_keys ++ seenOf hs
  | [], st, st', h => by
    simp only [List.foldlM_nil] at h
    cases h
    simp [seenOf]
  | m :: t, st, st', h => by
    rw [List.foldlM_cons] at h
    cases hstep : stepManifest ts src st m with
    | error e => rw [hstep] at h; exact Except.noConfusion h
    | ok s1 =>
      rw [hstep] at h
      have h2 : List.foldlM (stepManifest ts src) s1 t = .ok st' := h
      have ih := harvestFold_seen ts src t s1 st' h2
      rcases stepManifest_ok_cases ts src st m s1 hstep with ⟨hty, rfl⟩ | ⟨hty, hseen, _⟩
      · rw [ih]
        simp [seenOf, hty]
      · rw [ih, hseen]
        simp [seenOf, hty]

theorem harvestFold_disk (ts src : String) :
    ∀ (hs : List Manifest) (st st' : SyncState),
      List.foldlM (stepManifest ts src) st hs = .ok st' →
      ∀ p, p ∉ destPaths hs → alookup p st'.disk = alookup p st.disk
  | [], st, st', h, p, _ => by
    simp only [List.foldlM_nil] at h
    cases h
    rfl
  | m :: t, st, st', h, p, hp => by
    rw [List.foldlM_cons] at h
    cases hstep : stepManifest ts src st m with
    | error e => rw [hstep] at h; exact Except.noConfusion h
    | ok s1 =>
      rw [hstep] at h
      rcases stepManifest_ok_cases ts src st m s1 hstep with ⟨hty, rfl⟩ | ⟨hty, _, hdisk, _⟩
      · have hpt : p ∉ destPaths t := by
          intro hc
          exact hp (by simp [destPaths, hty, hc])
        exact harvestFold_disk ts src t s1 st' h p hpt
      · have hpd : p ∉ destPaths t ∧ p ≠ destRelOf m := by
          constructor
          · intro hc
            exact hp (by simp [destPaths, hty, hc])
          · intro hc
            exact hp (by simp [destPaths, hty, hc])
        rw [harvestFold_disk ts src t s1 st' h p hpd.1, hdisk,
          alookup_aupdate_ne st.disk p (destRelOf m) _ hpd.2]

theorem harvestFold_items (ts src : String) :
    ∀ (hs : List Manifest) (st st' : SyncState),
      List.foldlM (stepManifest ts src) st hs = .ok st' →
      ∃ its, st'.top_items = st.top_items ++ its
  | [], st, st', h => by
    simp only [List.foldlM_nil] at h
    cases h
    exact ⟨[], by simp⟩
  | m :: t, st, st', h => by
    rw [List.foldlM_cons] at h
    cases hstep : stepManifest ts src st m with
    | error e => rw [hstep] at h; exact Except.noConfusion h
    | ok s1 =>
      rw [hstep] at h
      obtain ⟨its2, hi2⟩ := harvestFold_items ts src t s1 st' h
      rcases stepManifest_ok_cases ts src st m s1 hstep with ⟨_, rfl⟩ | ⟨_, _, _, ⟨its1, hi1⟩, _⟩
      · exact ⟨its2, hi2⟩
      · exact ⟨its1 ++ its2, by rw [hi2, hi1, List.append_assoc]⟩

theorem harvestFold_writes (ts src : String) :
    ∀ (hs : List Manifest) (st st' : SyncState),
      List.foldlM (stepManifest ts src) st hs = .ok st' →
      ∃ ws, st'.writes = st.writes ++ ws
  | [], st, st', h => by
    simp only [List.foldlM_nil] at h
    cases h
    exact ⟨[], by simp⟩
  | m :: t, st, st', h => by
    rw [List.foldlM_cons] at h
    cases hstep : stepManifest ts src st m with
    | error e => rw [hstep] at h; exact Except.noConfusion h
    | ok s1 =>
      rw [hstep] at h
      obtain ⟨ws2, hw2⟩ := harvestFold_writes ts src t s1 st' h
      rcases stepManifest_ok_cases ts src st m s1 hstep with ⟨_, rfl⟩ | ⟨_, _, _, _, ⟨ws1, hw1⟩, _⟩
      · exact ⟨ws2, hw2⟩
      · exact ⟨(WriteEvent.manifestFile (destRelOf m) (mark_active_seen ts m) :: ws1) ++ ws2,
          by rw [hw2, hw1, List.append_assoc]⟩

theorem harvestFold_active (ts src : String) :
    ∀ (hs : List Manifest) (st st' : SyncState),
      List.foldlM (stepManifest ts src) st hs = .ok st' →
      ∀ p, p ∈ st'.active →
        p ∈ st.active ∨ (p ∈ destPaths hs ∧
          ∃ doc, WriteEvent.manifestFile p doc ∈ st'.writes ∧ statusOrActive doc = "active")
  | [], st, st', h, p, hp => by
    simp only [List.foldlM_nil] at h
    cases h
    exact Or.inl hp
  | m :: t, st, st', h, p, hp => by
    rw [List.foldlM_cons] at h
    cases hstep : stepManifest ts src st m with
    | error e => rw [hstep] at h; exact Except.noConfusion h
    | ok s1 =>
      rw [hstep] at h
      rcases harvestFold_active ts src t s1 st' h p hp with h1 | ⟨hmem, doc, hdoc⟩
      · rcases stepManifest_ok_cases ts src st m s1 hstep with ⟨hty, rfl⟩ | hcase
        · exact Or.inl h1
        · obtain ⟨hty, _, _, _, ⟨ws1, hw1⟩, hact⟩ := hcase
          rcases hact with ⟨hst, hac⟩ | ⟨_, hac⟩
          · rw [hac] at h1
            rcases List.mem_append.mp h1 with h2 | h2
            · exact Or.inl h2
            · right
              have hpd : p = destRelOf m := by simpa using h2
              subst hpd
              refine ⟨by simp [destPaths, hty], mark_active_seen ts m, ?_, hst⟩
              obtain ⟨ws2, hw2⟩ := harvestFold_writes ts src t s1 st' h
              rw [hw2, hw1]
              simp
          · rw [hac] at h1
            exact Or.inl h1
      · right
        refine ⟨?_, doc, hdoc⟩
        rcases stepManifest_ok_cases ts src st m s1 hstep with ⟨hty, _⟩ | ⟨hty, _⟩
        · simpa [destPaths, hty] using hmem
        · simp [destPaths, hty, hmem]

/-! ### Deprecation-loop lemmas -/

theorem depStep_frame (ts src : String) (st : SyncState) (e : CatalogKey × String) :
    (depStep ts src st e).active = st.active ∧
    (depStep ts src st e).seen_keys = st.seen_keys ∧
    (∀ p, p ≠ e.2 → alookup p (depStep ts src st e).disk = alookup p st.disk) ∧
    (∃ its, (depStep ts src st e).top_items = st.top_items ++ its) ∧
    (∃ ws, (depStep ts src st e).writes = st.writes ++ ws) := by
  unfold depStep
  split
  · exact ⟨rfl, rfl, fun p _ => rfl, ⟨[], by simp⟩, ⟨[], by simp⟩⟩
  · split
    · exact ⟨rfl, rfl, fun p _ => rfl, ⟨[], by simp⟩, ⟨[], by simp⟩⟩
    · split
      · exact ⟨rfl, rfl, fun p _ => rfl, ⟨[], by simp⟩, ⟨[], by simp⟩⟩
      · exact ⟨rfl, rfl,
          fun p hp => alookup_aupdate_ne st.disk p e.2 _ hp, ⟨_, rfl⟩, ⟨_, rfl⟩⟩

theorem depStep_hit (ts src : String) (st : SyncState) (key : CatalogKey) (p : String)
    (m : Manifest) (hseen : key ∉ st.seen_keys) (hdisk : alookup p st.disk = some m)
    (htype : m.type = some "mcp_server") :
    (depStep ts src st (key, p)).disk =
      aupdate p (mark_deprecated ts ("Not found in latest harvest from " ++ src) m) st.disk ∧
    ∃ it, (depStep ts src st (key, p)).top_items = st.top_items ++ [it] ∧
      it.manifest_path = p ∧ it.status = "deprecated" := by
  unfold depStep
  rw [if_neg hseen]
  simp only [hdisk]
  rw [if_neg (by simp [htype])]
  exact ⟨rfl, ⟨_, rfl, rfl, rfl⟩⟩

theorem depFold_active (ts src : String) :
    ∀ (entries : List (CatalogKey × String)) (st : SyncState),
      (entries.foldl (depStep ts src) st).active = st.active
  | [], _ => rfl
  | e :: rest, st => by
    rw [List.foldl_cons, depFold_active ts src rest (depStep ts src st e),
      (depStep_frame ts src st e).1]

theorem depFold_seen (ts src : String) :
    ∀ (entries : List (CatalogKey × String)) (st : SyncState),
      (entries.foldl (depStep ts src) st).seen_keys = st.seen_keys
  | [], _ => rfl
  | e :: rest, st => by
    rw [List.foldl_cons, depFold_seen ts src rest (depStep ts src st e),
      (depStep_frame ts src st e).2.1]

theorem depFold_disk (ts src : String) :
    ∀ (entries : List (CatalogKey × String)) (st : SyncState) (p : String),
      p ∉ entries.map Prod.snd →
      alookup p (entries.foldl (depStep ts src) st).disk = alookup p st.disk
  | [], _, _, _ => rfl
  | e :: rest, st, p, hp => by
    have hp1 : p ≠ e.2 := fun hc => hp (by simp [hc])
    have hp2 : p ∉ rest.map Prod.snd := fun hc => hp (by simp [hc])
    rw [List.foldl_cons, depFold_disk ts src rest (depStep ts src st e) p hp2,
      (depStep_frame ts src st e).2.2.1 p hp1]

theorem depFold_items_mem (ts src : String) :
    ∀ (entries : List (CatalogKey × String)) (st : SyncState) (it : Item),
      it ∈ st.top_items → it ∈ (entries.foldl (depStep ts src) st).top_items
  | [], _, _, h => h
  | e :: rest, st, it, h => by
    rw [List.foldl_cons]
    refine depFold_items_mem ts src rest (depStep ts src st e) it ?_
    obtain ⟨its, hits⟩ := (depStep_frame ts src st e).2.2.2.1
    rw [hits]
    exact List.mem_append_left its h

theorem depFold_writes_mem (ts src : String) :
    ∀ (entries : List (CatalogKey × String)) (st : SyncState) (w : WriteEvent),
      w ∈ st.writes → w ∈ (entries.foldl (depStep ts src) st).writes
  | [], _, _, h => h
  | e :: rest, st, w, h => by
    rw [List.foldl_cons]
    refine depFold_writes_mem ts src rest (depStep ts src st e) w ?_
    obtain ⟨ws, hws⟩ := (depStep_frame ts src st e).2.2.2.2
    rw [hws]
    exact List.mem_append_left ws h

theorem depFold_hit (ts src : String) :
    ∀ (e1 e2 : List (CatalogKey × String)) (key : CatalogKey) (p : String) (m : Manifest)
      (st : SyncState), p ∉ e1.map Prod.snd → p ∉ e2.map Prod.snd →
      key ∉ st.seen_keys → alookup p st.disk = some m → m.type = some "mcp_server" →
      alookup p ((e1 ++ (key, p) :: e2).foldl (depStep ts src) st).disk =
        some (mark_deprecated ts ("Not found in latest harvest from " ++ src) m) ∧
      ∃ it ∈ ((e1 ++ (key, p) :: e2).foldl (depStep ts src) st).top_items,
        it.manifest_path = p ∧ it.status = "deprecated"
  | [], e2, key, p, m, st, _, hp2, hseen, hdisk, htype => by
    rw [List.nil_append, List.foldl_cons]
    obtain ⟨hd, it, hit, hp, hs⟩ := depStep_hit ts src st key p m hseen hdisk htype
    constructor
    · rw [depFold_disk ts src e2 _ p hp2, hd, alookup_aupdate_self]
    · refine ⟨it, depFold_items_mem ts src e2 _ it ?_, hp, hs⟩
      rw [hit]
      simp
  | e :: e1, e2, key, p, m, st, hp1, hp2, hseen, hdisk, htype => by
    rw [List.cons_append, List.foldl_cons]
    have hpe : p ≠ e.2 := fun hc => hp1 (by simp [hc])
    have hp1' : p ∉ e1.map Prod.snd := fun hc => hp1 (by simp [hc])
    obtain ⟨hact, hsn, hdk, _, _⟩ := depStep_frame ts src st e
    refine depFold_hit ts src e1 e2 key p m (depStep ts src st e) hp1' hp2 ?_ ?_ htype
    · rw [hsn]
      exact hseen
    · rw [hdk p hpe]
      exact hdisk

/-! ### Run decomposition and path-shape lemmas -/

theorem runSync_cases (ts src : String) (disk0 : List (String × Manifest))
    (harvested : List Manifest) (r : RunResult)
    (h : runSync ts src disk0 harvested = .ok r) :
    ∃ st1, List.foldlM (stepManifest ts src)
        ⟨[], [], [], [], [], disk0, [], 0⟩ harvested = .ok st1 ∧
      r = finalizeRun ts src ((existingByKey disk0).foldl (depStep ts src) st1) := by
  unfold runSync at h
  split at h
  · exact Except.noConfusion h
  · dsimp only at h
    split at h
    · exact Except.noConfusion h
    · rename_i st1 hfold
      exact ⟨st1, hfold, (((Except.ok.injEq _ _).mp h)).symm⟩

theorem mem_destPaths : ∀ (hs : List Manifest) (p : String),
    p ∈ destPaths hs → ∃ m, p = destRelOf m
  | [], p, h => absurd h (List.not_mem_nil p)
  | m :: t, p, h => by
    by_cases ht : m.type = some "mcp_server"
    · simp only [destPaths, if_pos ht, List.mem_cons] at h
      rcases h with h | h
      · exact ⟨m, h⟩
      · exact mem_destPaths t p h
    · simp only [destPaths, if_neg ht] at h
      exact mem_destPaths t p h

theorem startsWithB_append (a b : String) : startsWithB a (a ++ b) = true := by
  unfold startsWithB
  rw [String.data_append]
  exact isPrefixB_append a.data b.data

theorem startsWithB_servers_destRel (m : Manifest) :
    startsWithB "servers/" (destRelOf m) = true := by
  unfold startsWithB
  have hdata : (destRelOf m).data = "servers/".data ++
      ((group_dir_name (extract_source_repo_path m).1).data ++ "/".data ++
        (variant_dir_name (extract_source_repo_path m).1 (extract_source_repo_path m).2).data ++
        "/manifest.json".data) := by
    simp [destRelOf, groupRelOf, String.data_append, List.append_assoc]
  rw [hdata]
  exact isPrefixB_append _ _

theorem startsWithB_servers_not_url (p : String)
    (h : startsWithB "servers/" p = true) :
    startsWithB "http://" p = false ∧ startsWithB "https://" p = false ∧
      startsWithB "/" p = false := by
  unfold startsWithB at h ⊢
  obtain ⟨t, hp, _⟩ := isPrefixB_cons_head (by exact h)
  rw [hp]
  refine ⟨?_, ?_, ?_⟩ <;> simp [isPrefixB]

/-! ### Slug-shape lemmas -/

theorem mem_collapseAux : ∀ (b : Bool) (l : List Char) (c : Char),
    c ∈ collapseAux b l → isSlugChar c = true ∨ c = '-'
  | _, [], c, h => absurd h (List.not_mem_nil c)
  | b, d :: ds, c, h => by
    unfold collapseAux at h
    by_cases hd : isSlugChar d
    · rw [if_pos hd] at h
      rcases List.mem_cons.mp h with h | h
      · exact Or.inl (h ▸ hd)
      · exact mem_collapseAux false ds c h
    · rw [if_neg hd] at h
      cases b with
      | true => exact mem_collapseAux true ds c (by simpa using h)
      | false =>
        rcases List.mem_cons.mp h with h | h
        · exact Or.inr h
        · exact mem_collapseAux true ds c h

theorem collapseAux_true_head : ∀ (l : List Char) (c : Char) (t : List Char),
    collapseAux true l = c :: t → c ≠ '-'
  | [], c, t, h => by simp [collapseAux] at h
  | d :: ds, c, t, h => by
    unfold collapseAux at h
    by_cases hd : isSlugChar d
    · rw [if_pos hd] at h
      intro hc
      have hdc : d = c := (List.cons.inj h).1
      rw [hdc, hc] at hd
      exact absurd hd (by decide)
    · rw [if_neg hd] at h
      simp only [if_pos rfl] at h
      exact collapseAux_true_head ds c t (by simpa using h)

theorem noDoubleDash_cons (c : Char) (X : List Char)
    (h : ∀ x xs, X = x :: xs → ¬(c = '-' ∧ x = '-')) (hX : noDoubleDash X = true) :
    noDoubleDash (c :: X) = true := by
  cases X with
  | nil => rfl
  | cons x xs =>
    unfold noDoubleDash
    rw [if_neg (h x xs rfl)]
    exact hX

theorem noDoubleDash_collapseAux : ∀ (b : Bool) (l : List Char),
    noDoubleDash (collapseAux b l) = true
  | _, [] => rfl
  | b, d :: ds => by
    unfold collapseAux
    by_cases hd : isSlugChar d
    · rw [if_pos hd]
      refine noDoubleDash_cons d _ (fun x xs hx hc => ?_) (noDoubleDash_collapseAux false ds)
      rw [hc.1] at hd
      exact absurd hd (by decide)
    · rw [if_neg hd]
      cases b with
      | true => simpa using noDoubleDash_collapseAux true ds
      | false =>
        simp only [Bool.false_eq_true, if_false]
        refine noDoubleDash_cons '-' _ (fun x xs hx hc => ?_) (noDoubleDash_collapseAux true ds)
        exact collapseAux_true_head ds x xs hx hc.2
  termination_by b l => l.length

theorem noDoubleDash_tail (c : Char) (l : List Char)
    (h : noDoubleDash (c :: l) = true) : noDoubleDash l = true := by
  cases l with
  | nil => rfl
  | cons x xs =>
    unfold noDoubleDash at h
    by_cases hc : c = '-' ∧ x = '-'
    · rw [if_pos hc] at h
      exact absurd h (by simp)
    · rwa [if_neg hc] at h

theorem noDoubleDash_dropWhile (p : Char → Bool) :
    ∀ l : List Char, noDoubleDash l = true → noDoubleDash (l.dropWhile p) = true
  | [], h => h
  | c :: cs, h => by
    by_cases hp : p c
    · rw [List.dropWhile_cons_of_pos hp]
      exact noDoubleDash_dropWhile p cs (noDoubleDash_tail c cs h)
    · rwa [List.dropWhile_cons_of_neg hp]

theorem noDoubleDash_cons2 (a b : Char) (r : List Char) :
    noDoubleDash (a :: b :: r) = if a = '-' ∧ b = '-' then false else noDoubleDash (b :: r) := rfl

theorem noDoubleDash_append_left : ∀ (a b : List Char),
    noDoubleDash (a ++ b) = true → noDoubleDash a = true
  | [], _, _ => rfl
  | [_], _, _ => rfl
  | x :: y :: t, b, h => by
    rw [List.cons_append, List.cons_append, noDoubleDash_cons2] at h
    rw [noDoubleDash_cons2]
    by_cases hc : x = '-' ∧ y = '-'
    · rw [if_pos hc] at h
      exact absurd h (by simp)
    · rw [if_neg hc] at h
      rw [if_neg hc]
      exact noDoubleDash_append_left (y :: t) b (by rw [List.cons_append]; exact h)

theorem dropRightWhile_eq_append (p : Char → Bool) (l : List Char) :
    l = dropRightWhile p l ++ (l.reverse.takeWhile p).reverse := by
  unfold dropRightWhile
  rw [← List.reverse_append, List.takeWhile_append_dropWhile, List.reverse_reverse]

theorem noDoubleDash_dropRightWhile (p : Char → Bool) (l : List Char)
    (h : noDoubleDash l = true) : noDoubleDash (dropRightWhile p l) = true := by
  refine noDoubleDash_append_left _ ((l.reverse.takeWhile p).reverse) ?_
  rw [← dropRightWhile_eq_append]
  exact h

theorem head_dropWhile_false (p : Char → Bool) :
    ∀ (l : List Char) (x : Char) (t : List Char), l.dropWhile p = x :: t → p x = false
  | [], x, t, h => by simp [List.dropWhile] at h
  | c :: cs, x, t, h => by
    by_cases hp : p c
    · rw [List.dropWhile_cons_of_pos hp] at h
      exact head_dropWhile_false p cs x t h
    · rw [List.dropWhile_cons_of_neg hp] at h
      obtain ⟨rfl, -⟩ := List.cons.inj h
      exact Bool.of_not_eq_true hp

theorem mem_dropWhile_mem (p : Char → Bool) :
    ∀ (l : List Char) (c : Char), c ∈ l.dropWhile p → c ∈ l
  | [], c, h => h
  | d :: ds, c, h => by
    by_cases hp : p d
    · rw [List.dropWhile_cons_of_pos hp] at h
      exact List.mem_cons_of_mem d (mem_dropWhile_mem p ds c h)
    · rwa [List.dropWhile_cons_of_neg hp] at h

theorem mem_stripWhile (p : Char → Bool) (l : List Char) (c : Char)
    (h : c ∈ stripWhile p l) : c ∈ l := by
  unfold stripWhile at h
  have h1 : c ∈ l.dropWhile p := by
    have := dropRightWhile_eq_append p (l.dropWhile p)
    rw [this]
    exact List.mem_append_left _ h
  exact mem_dropWhile_mem p l c h1

theorem head_stripWhile_false (p : Char → Bool) (l : List Char) (x : Char) (t : List Char)
    (h : stripWhile p l = x :: t) : p x = false := by
  unfold stripWhile at h
  set Y := l.dropWhile p with hY
  have happ := dropRightWhile_eq_append p Y
  rw [h] at happ
  have happ2 : l.dropWhile p = x :: (t ++ (Y.reverse.takeWhile p).reverse) := by
    conv_lhs => rw [← hY, happ]
    rw [List.cons_append]
  exact head_dropWhile_false p l x _ happ2

theorem getLast_stripWhile_false (p : Char → Bool) (l : List Char) (x : Char)
    (h : (stripWhile p l).getLast? = some x) : p x = false := by
  unfold stripWhile dropRightWhile at h
  rw [List.getLast?_reverse] at h
  cases hd : ((l.dropWhile p).reverse.dropWhile p) with
  | nil => rw [hd] at h; exact absurd h (by simp)
  | cons y ys =>
    rw [hd] at h
    simp only [List.head?_cons, Option.some.injEq] at h
    rw [← h]
    exact head_dropWhile_false p _ y ys hd

theorem noDoubleDash_stripWhile (p : Char → Bool) (l : List Char)
    (h : noDoubleDash l = true) : noDoubleDash (stripWhile p l) = true :=
  noDoubleDash_dropRightWhile p _ (noDoubleDash_dropWhile p l h)

/-! ### Claims -/

/-- C1 counterexample: the on-disk entry at `c2Path` is manually `disabled`,
and its Identity Key is observed in the current harvest — yet the run
overwrites that location with `mark_active_seen` of the freshly harvested
document (which carries no `lifecycle`), so the file ends the run with status
`active` and its path even enters the ingestion-contract `manifests` list:
`disabled` is not sticky for the on-disk entry. -/
theorem claim_C1_counterexample :
    lifecycleStatus c1DiskDoc = some "disabled" ∧
    catalogKeyOf c2HarvestDoc = catalogKeyOf c1DiskDoc ∧
    destRelOf c2HarvestDoc = c2Path ∧
    okAnd (runSync "T1" "SRC" [(c2Path, c1DiskDoc)] [c2HarvestDoc]) (fun r =>
      (alookup c2Path r.disk).map lifecycleStatus = some (some "active") ∧
      c2Path ∈ r.topIndex.manifests) := by
  refine ⟨by decide, by decide, by decide, ?_⟩
  decide

/-- C1 (amended): the lifecycle transforms themselves never flip `disabled` to
`active`: a manifest *document* carrying status `disabled` keeps it through
`mark_active_seen` (so a harvested document that itself says `disabled` is
written back `disabled`) and through `mark_deprecated` (an absent entry's file
is rewritten with `disabled` untouched).  The stickiness does not extend to
the on-disk entry: when a disabled on-disk entry's Identity Key is observed
in the harvest, its file is overwritten with the freshly harvested document
marked active — the prior on-disk status is never consulted. -/
theorem claim_C1_disabled_sticky (ts reason : String) (m : Manifest)
    (h : lifecycleStatus m = some "disabled") :
    lifecycleStatus (mark_active_seen ts m) = some "disabled" ∧
    lifecycleStatus (mark_deprecated ts reason m) = some "disabled" := by
  unfold lifecycleStatus at h
  constructor
  · unfold mark_active_seen lifecycleStatus
    dsimp only
    split_ifs <;> simp_all
  · unfold mark_deprecated lifecycleStatus
    dsimp only
    split_ifs <;> simp_all

/-- C1 witness: the theorem applied to a concrete disabled manifest. -/
theorem claim_C1_witness :
    lifecycleStatus (mark_active_seen "T1"
      { type := some "mcp_server", lifecycle := some { status := some "disabled" } })
      = some "disabled" ∧
    lifecycleStatus (mark_deprecated "T1" "gone"
      { type := some "mcp_server", lifecycle := some { status := some "disabled" } })
      = some "disabled" :=
  claim_C1_disabled_sticky "T1" "gone"
    { type := some "mcp_server", lifecycle := some { status := some "disabled" } }
    (by decide)

/-- C2 counterexample: the prior on-disk entry at `c2Path` is `deprecated` and
its Identity Key reappears in the current harvest, yet the run (which reads
only the freshly harvested document, which carries no `lifecycle`) writes the
file back with status `active` and **no** `reactivated_at` timestamp — the
claim requires one to be set. -/
theorem claim_C2_counterexample :
    lifecycleStatus c2DiskDoc = some "deprecated" ∧
    catalogKeyOf c2HarvestDoc = catalogKeyOf c2DiskDoc ∧
    destRelOf c2HarvestDoc = c2Path ∧
    okAnd (runSync "T1" "SRC" [(c2Path, c2DiskDoc)] [c2HarvestDoc]) (fun r =>
      (alookup c2Path r.disk).map lifecycleStatus = some (some "active") ∧
      (alookup c2Path r.disk).map
          (fun d => (d.lifecycle.getD {}).reactivated_at) = some none ∧
      (alookup c2Path r.disk).map
          (fun d => (d.harvest.getD {}).seen_in_latest_run) = some (some true)) := by
  refine ⟨by decide, by decide, by decide, ?_⟩
  decide

/-- C2 (amended): reactivation is keyed to the harvested document itself, not
to the prior on-disk entry: when the document processed by the harvest loop
carries status `deprecated`, `mark_active_seen` returns it with status
`active`, `reactivated_at` set to the run timestamp, `seen_in_latest_run`
true, and the last-seen timestamp updated. -/
theorem claim_C2_amended_reactivation (ts : String) (m : Manifest)
    (h : lifecycleStatus m = some "deprecated") :
    lifecycleStatus (mark_active_seen ts m) = some "active" ∧
    ((mark_active_seen ts m).lifecycle.getD {}).reactivated_at = some ts ∧
    ((mark_active_seen ts m).harvest.getD {}).seen_in_latest_run = some true ∧
    ((mark_active_seen ts m).harvest.getD {}).last_seen_at = some ts := by
  unfold lifecycleStatus at h
  unfold mark_active_seen lifecycleStatus
  dsimp only
  split_ifs <;> simp_all

/-- C2 witness for the amended claim, at a concrete deprecated document. -/
theorem claim_C2_amended_witness :
    lifecycleStatus (mark_active_seen "T1" c2DiskDoc) = some "active" ∧
    ((mark_active_seen "T1" c2DiskDoc).lifecycle.getD {}).reactivated_at = some "T1" ∧
    ((mark_active_seen "T1" c2DiskDoc).harvest.getD {}).seen_in_latest_run = some true ∧
    ((mark_active_seen "T1" c2DiskDoc).harvest.getD {}).last_seen_at = some "T1" :=
  claim_C2_amended_reactivation "T1" c2DiskDoc (by decide)

/-- C4: if a harvested manifest's non-empty stripped id is already bound this
run to a *different* Identity Key, the step aborts the whole run with an
`idCollision` error carrying both conflicting keys (the `SystemExit` message
interpolates `id_to_key[mid]` and `key`); if it is bound to the *same* key,
the step succeeds and processing continues. -/
theorem claim_C4_id_collision_guard (ts src : String) (st : SyncState) (m : Manifest)
    (k1 : CatalogKey) (htype : m.type = some "mcp_server") (hmid : midOf m ≠ "")
    (hlk : alookup (midOf m) st.id_to_key = some k1) :
    (k1 ≠ catalogKeyOf m →
      stepManifest ts src st m = .error (.idCollision (midOf m) k1 (catalogKeyOf m))) ∧
    (k1 = catalogKeyOf m → ∃ st', stepManifest ts src st m = .ok st') := by
  unfold stepManifest
  rw [if_neg (by simp [htype])]
  dsimp only
  rw [show (mark_active_seen ts m).id = m.id from rfl]
  rw [show (⟨stripWhile pyIsSpace (pyStrOr m.id "").data⟩ : String) = midOf m from rfl]
  rw [if_neg hmid, hlk]
  dsimp only
  constructor
  · intro hne
    rw [if_pos (show k1 ≠ (⟨(extract_source_repo_path m).1, (extract_source_repo_path m).2,
      extract_transport m⟩ : CatalogKey) from hne)]
    rfl
  · intro heq
    rw [if_neg (show ¬k1 ≠ (⟨(extract_source_repo_path m).1, (extract_source_repo_path m).2,
      extract_transport m⟩ : CatalogKey) from not_not_intro heq)]
    exact ⟨_, rfl⟩

/-- C4 witness: a colliding pair aborts with both keys in the error, and a
repeat of the same binding continues. -/
theorem claim_C4_witness :
    (stepManifest "T1" "SRC"
        { id_to_key := [("x1", ⟨"acme/widget", "src/server", "STDIO"⟩)], seen_keys := [],
          top_items := [], active := [], groups := [], disk := [], writes := [],
          deprecated_added := 0 }
        { type := some "mcp_server", id := some "x1",
          provenance := some { repo_url := some "https://github.com/other/repo" },
          mcp_registration := some { server := some { transport := some "SSE",
                                                      url := some "u" } } } =
      .error (.idCollision "x1" ⟨"acme/widget", "src/server", "STDIO"⟩
        ⟨"other/repo", "", "SSE"⟩)) ∧
    (∃ st', stepManifest "T1" "SRC"
        { id_to_key := [("x1", ⟨"acme/widget", "src/server", "STDIO"⟩)], seen_keys := [],
          top_items := [], active := [], groups := [], disk := [], writes := [],
          deprecated_added := 0 }
        c2HarvestDoc = .ok st') := by
  constructor
  · exact (claim_C4_id_collision_guard "T1" "SRC" _ _ _ (by decide) (by decide)
      (by decide)).1 (by decide)
  · exact (claim_C4_id_collision_guard "T1" "SRC" _ c2HarvestDoc
      ⟨"acme/widget", "src/server", "STDIO"⟩ (by decide) (by decide) (by decide)).2
      (by decide)

/-- C5: a harvested `mcp_server` manifest whose id is missing, empty, or only
whitespace makes the step return the `missingId` abort; since the error is
raised before any `write_json` call for that manifest, no manifest.json,
provenance.json, or variant index is written for it, and a run whose harvest
list starts with such a manifest aborts with that error. -/
theorem claim_C5_empty_id_aborts (ts src : String) (st : SyncState) (m : Manifest)
    (htype : m.type = some "mcp_server") (hmid : midOf m = "") :
    stepManifest ts src st m =
      .error (.missingId (extract_source_repo_path m).1 (extract_source_repo_path m).2) ∧
    ∀ (disk0 : List (String × Manifest)) (rest : List Manifest),
      runSync ts src disk0 (m :: rest) =
        .error (.missingId (extract_source_repo_path m).1 (extract_source_repo_path m).2) := by
  have hstep : stepManifest ts src st m =
      .error (.missingId (extract_source_repo_path m).1 (extract_source_repo_path m).2) := by
    unfold stepManifest
    rw [if_neg (by simp [htype])]
    dsimp only
    rw [show (mark_active_seen ts m).id = m.id from rfl]
    rw [if_pos (by exact hmid)]
  refine ⟨hstep, fun disk0 rest => ?_⟩
  unfold runSync
  rw [if_neg (by simp)]
  dsimp only
  rw [List.foldlM_cons]
  have hstep0 : stepManifest ts src
      ⟨[], [], [], [], [], disk0, [], 0⟩ m =
      .error (.missingId (extract_source_repo_path m).1 (extract_source_repo_path m).2) := by
    unfold stepManifest
    rw [if_neg (by simp [htype])]
    dsimp only
    rw [show (mark_active_seen ts m).id = m.id from rfl]
    rw [if_pos (by exact hmid)]
  rw [hstep0]
  rfl

/-- C5 witness: a whitespace-only id aborts the step and the run. -/
theorem claim_C5_witness :
    stepManifest "T1" "SRC"
      { id_to_key := [], seen_keys := [], top_items := [], active := [], groups := [],
        disk := [], writes := [], deprecated_added := 0 }
      { type := some "mcp_server", id := some "  ",
        provenance := some { repo_url := some "https://github.com/acme/widget" } } =
      .error (.missingId "acme/widget" "") ∧
    runSync "T1" "SRC" []
      [{ type := some "mcp_server", id := some "  ",
         provenance := some { repo_url := some "https://github.com/acme/widget" } }] =
      .error (.missingId "acme/widget" "") := by
  have h := claim_C5_empty_id_aborts "T1" "SRC"
    { id_to_key := [], seen_keys := [], top_items := [], active := [], groups := [],
      disk := [], writes := [], deprecated_added := 0 }
    { type := some "mcp_server", id := some "  ",
      provenance := some { repo_url := some "https://github.com/acme/widget" } }
    (by decide) (by decide)
  exact ⟨h.1, h.2 [] []⟩

/-- C9: the Identity Key is a function of the `provenance` and
`mcp_registration` sub-objects alone: two manifests agreeing there — however
much their `id` (or any other field) differs — get identical extraction
results and an identical `CatalogKey`. -/
theorem claim_C9_key_independent_of_id (m1 m2 : Manifest)
    (hp : m1.provenance = m2.provenance)
    (hr : m1.mcp_registration = m2.mcp_registration) :
    extract_source_repo_path m1 = extract_source_repo_path m2 ∧
    extract_transport m1 = extract_transport m2 ∧
    catalogKeyOf m1 = catalogKeyOf m2 := by
  have h1 : extract_source_repo_path m1 = extract_source_repo_path m2 := by
    unfold extract_source_repo_path
    rw [hp]
  have h2 : extract_transport m1 = extract_transport m2 := by
    unfold extract_transport
    rw [hr]
  refine ⟨h1, h2, ?_⟩
  unfold catalogKeyOf
  rw [h1, h2]

/-- C9 witness: two concrete manifests differing only in `id` share a key. -/
theorem claim_C9_witness :
    catalogKeyOf c2HarvestDoc =
      catalogKeyOf { c2HarvestDoc with id := some "totally-different" } :=
  (claim_C9_key_independent_of_id c2HarvestDoc
    { c2HarvestDoc with id := some "totally-different" } rfl rfl).2.2

/-- C10: the index validator defaults a missing lifecycle status to `active`:
an entry whose manifest parses, has type `mcp_server`, and has no `lifecycle`
object or no `status` field contributes no violation, passing as if active. -/
theorem claim_C10_missing_status_defaults_active (m : Manifest)
    (htype : m.type = some "mcp_server")
    (h : m.lifecycle = none ∨ (m.lifecycle.getD {}).status = none) :
    indexEntryErrors m = 0 := by
  unfold indexEntryErrors
  rcases h with h | h
  · simp [htype, h]
  · simp [htype, h]

/-- C10 witness: a manifest with no lifecycle object passes the entry check. -/
theorem claim_C10_witness :
    indexEntryErrors { type := some "mcp_server", id := some "x1" } = 0 :=
  claim_C10_missing_status_defaults_active
    { type := some "mcp_server", id := some "x1" } (by decide) (Or.inl (by decide))

theorem structureValidateAll_shift : ∀ (l : List (String × Manifest)) (a : Nat),
    l.foldl (fun acc pm => acc + structureManifestErrors pm.2) a =
      a + structureValidateAll l
  | [], a => by simp [structureValidateAll]
  | x :: t, a => by
    unfold structureValidateAll
    rw [List.foldl_cons, List.foldl_cons,
      structureValidateAll_shift t (a + structureManifestErrors x.2),
      structureValidateAll_shift t (0 + structureManifestErrors x.2)]
    omega

/-- C8 counterexample: a manifest whose `mcp_registration.server.transport` is
present but outside the `SSE/STDIO/WS` enumeration yields **zero** counted
violations (only a printed warning), and the full validator pass over a tree
containing it exits 0 — the claim requires a counted violation contributing
to a non-zero exit. -/
theorem claim_C8_counterexample :
    structureManifestErrors
      { type := some "mcp_server", id := some "x1", name := some "n",
        mcp_registration := some { server := some { transport := some "HTTP",
                                                    url := some "u", exec := some "e" } } } = 0 ∧
    ("HTTP" ∉ (["SSE", "STDIO", "WS"] : List String)) ∧
    structureExitCode
      [("servers/g/v/manifest.json",
        { type := some "mcp_server", id := some "x1", name := some "n",
          mcp_registration := some { server := some { transport := some "HTTP",
                                                      url := some "u", exec := some "e" } } })]
      = 0 := by
  refine ⟨by decide, by decide, by decide⟩

/-- C8 (amended): the structural validator records a counted violation when a
required field (`id`, `name`, `mcp_registration`) is missing or empty, when
the transport is missing, and when the transport-specific sub-field is absent
(`url` for SSE/WS, `exec` for STDIO); a transport that is present but outside
the `SSE/STDIO/WS` enumeration is only warned about and adds **no** error;
all violations are accumulated over the full pass and the command exits
non-zero exactly when the accumulated count is non-zero. -/
theorem claim_C8_amended_validator (data : Manifest)
    (tree1 tree2 : List (String × Manifest)) :
    (reqFieldMissing data.id = true → 1 ≤ structureManifestErrors data) ∧
    (reqFieldMissing data.name = true → 1 ≤ structureManifestErrors data) ∧
    (data.mcp_registration = none → 1 ≤ structureManifestErrors data) ∧
    (∀ server : McpServer, pyTruthy server.transport = false → transportErrors server = 1) ∧
    (∀ t u e, t ∉ (["SSE", "STDIO", "WS"] : List String) → t ≠ "" →
      transportErrors { transport := some t, url := u, exec := e } = 0) ∧
    (∀ u e, pyTruthy u = false →
      transportErrors { transport := some "SSE", url := u, exec := e } = 1 ∧
      transportErrors { transport := some "WS", url := u, exec := e } = 1) ∧
    (∀ u e, pyTruthy e = false →
      transportErrors { transport := some "STDIO", url := u, exec := e } = 1) ∧
    structureValidateAll (tree1 ++ tree2) =
      structureValidateAll tree1 + structureValidateAll tree2 ∧
    (structureExitCode (tree1 ++ tree2) = 0 ↔ structureValidateAll (tree1 ++ tree2) = 0) := by
  refine ⟨?_, ?_, ?_, ?_, ?_, ?_, ?_, ?_, ?_⟩
  · intro h
    unfold structureManifestErrors
    dsimp only
    rw [if_pos h]
    omega
  · intro h
    unfold structureManifestErrors
    dsimp only
    rw [if_pos h]
    omega
  · intro h
    unfold structureManifestErrors
    dsimp only
    rw [if_pos h]
    omega
  · intro server h
    unfold transportErrors
    rw [h]
    rfl
  · intro t u e hmem hne
    simp only [List.mem_cons, List.mem_singleton, not_or] at hmem
    obtain ⟨h1, h2, h3⟩ := hmem
    simp [transportErrors, pyTruthy, hne, h1, h2, h3]
  · intro u e hu
    constructor
    · simp [transportErrors, hu, show pyTruthy (some "SSE") = true from rfl]
    · simp [transportErrors, hu, show pyTruthy (some "WS") = true from rfl]
  · intro u e he
    simp [transportErrors, he, show pyTruthy (some "STDIO") = true from rfl]
  · unfold structureValidateAll
    rw [List.foldl_append]
    exact structureValidateAll_shift tree2 _
  · unfold structureExitCode
    split_ifs with h
    · simp [h]
    · simpa using h

/-- C8 witness for the amended claim: concrete cases of each counted and
uncounted check. -/
theorem claim_C8_amended_witness :
    1 ≤ structureManifestErrors { type := some "mcp_server", name := some "n" } ∧
    transportErrors { transport := none, url := none, exec := none } = 1 ∧
    transportErrors { transport := some "HTTP", url := some "u", exec := some "e" } = 0 ∧
    transportErrors { transport := some "SSE", url := none, exec := none } = 1 ∧
    transportErrors { transport := some "STDIO", url := some "u", exec := none } = 1 ∧
    structureValidateAll ([("a", { type := some "mcp_server" })] ++
        [("b", { id := some "x" })]) =
      structureValidateAll [("a", { type := some "mcp_server" })] +
        structureValidateAll [("b", { id := some "x" })] := by
  have h := claim_C8_amended_validator { type := some "mcp_server", name := some "n" }
    [("a", { type := some "mcp_server" })] [("b", { id := some "x" })]
  refine ⟨h.1 (by decide), ?_, ?_, ?_, ?_, h.2.2.2.2.2.2.2.1⟩
  · exact h.2.2.2.1 { transport := none, url := none, exec := none } (by decide)
  · exact h.2.2.2.2.1 "HTTP" (some "u") (some "e") (by decide) (by decide)
  · exact (h.2.2.2.2.2.1 none none (by decide)).1
  · exact h.2.2.2.2.2.2.1 (some "u") none (by decide)

theorem slugParts_shape (l1 : List Char) :
    (∀ c ∈ stripWhile (fun c => decide (c = '-')) (collapseAux false l1),
      isSlugChar c = true ∨ c = '-') ∧
    (stripWhile (fun c => decide (c = '-')) (collapseAux false l1)).head? ≠ some '-' ∧
    (stripWhile (fun c => decide (c = '-')) (collapseAux false l1)).getLast? ≠ some '-' ∧
    noDoubleDash (stripWhile (fun c => decide (c = '-')) (collapseAux false l1)) = true := by
  refine ⟨?_, ?_, ?_, noDoubleDash_stripWhile _ _ (noDoubleDash_collapseAux false l1)⟩
  · intro c hc
    exact mem_collapseAux false l1 c (mem_stripWhile _ _ c hc)
  · cases hd : stripWhile (fun c => decide (c = '-')) (collapseAux false l1) with
    | nil => simp
    | cons x t =>
      have hx := head_stripWhile_false _ _ x t hd
      simp only [List.head?_cons, ne_eq, Option.some.injEq]
      intro he
      rw [he] at hx
      simp at hx
  · intro hx
    have := getLast_stripWhile_false _ _ '-' hx
    simp at this

/-- C7: the path builder maps repo `acme/widget` with subpath `src/server` to
group directory `servers/acme-widget` and variant directory
`widget__src__server`; `safe_slug` maps any string into `[a-z0-9]` with
non-alphanumeric runs collapsed to single `'-'` (never two adjacent), no
leading or trailing `'-'`, the empty result replaced by `"unknown"` (so the
result is never empty); the empty subpath maps to the root token `"."` and
`'/'` in a subpath becomes `"__"`. -/
theorem claim_C7_path_builder (s : String) :
    groupRelOf "acme/widget" = "servers/acme-widget" ∧
    variant_dir_name "acme/widget" "src/server" = "widget__src__server" ∧
    safe_slug "" = "unknown" ∧
    (∀ repo : String, subpath_to_variant repo "" = repo ++ "__" ++ ".") ∧
    subpath_to_variant "widget" "src/server" = "widget__src__server" ∧
    (∀ c ∈ (safe_slug s).data, isSlugChar c = true ∨ c = '-') ∧
    safe_slug s ≠ "" ∧
    (safe_slug s).data.head? ≠ some '-' ∧
    (safe_slug s).data.getLast? ≠ some '-' ∧
    noDoubleDash (safe_slug s).data = true := by
  refine ⟨by decide, by decide, by decide, fun repo => rfl, by decide, ?_, ?_, ?_, ?_, ?_⟩
  · unfold safe_slug
    dsimp only
    split
    · decide
    · exact (slugParts_shape (s.data.map charLower)).1
  · unfold safe_slug
    dsimp only
    split
    · decide
    · rename_i h
      intro hE
      exact h (congrArg String.data hE)
  · unfold safe_slug
    dsimp only
    split
    · decide
    · exact (slugParts_shape (s.data.map charLower)).2.1
  · unfold safe_slug
    dsimp only
    split
    · decide
    · exact (slugParts_shape (s.data.map charLower)).2.2.1
  · unfold safe_slug
    dsimp only
    split
    · decide
    · exact (slugParts_shape (s.data.map charLower)).2.2.2

/-- C7 witness: the full statement instantiated at a messy concrete string. -/
theorem claim_C7_witness :
    (∀ c ∈ (safe_slug "  Acme++Widget 2.0  ").data, isSlugChar c = true ∨ c = '-') ∧
    safe_slug "  Acme++Widget 2.0  " ≠ "" ∧
    noDoubleDash (safe_slug "  Acme++Widget 2.0  ").data = true := by
  have h := claim_C7_path_builder "  Acme++Widget 2.0  "
  exact ⟨h.2.2.2.2.2.1, h.2.2.2.2.2.2.1, h.2.2.2.2.2.2.2.2.2⟩

/-- C6 counterexample (transport aliasing): in the run where the on-disk
`SSE` entry at `c2Path` is replaced upstream by an `STDIO` manifest with the
same repo/subpath (same destination path, different Identity Key), the
completed run's ingestion-contract `manifests` list contains `c2Path` while
the manifest file at `c2Path` ends the run with lifecycle status
`deprecated` — the deprecation pass rewrote it after the active write — so a
`deprecated` entry does appear in the list. -/
theorem claim_C6_counterexample :
    okAnd (runSync "T1" "SRC" [(c2Path, c36OldDoc)] [c3NewDoc]) (fun r =>
      c2Path ∈ r.topIndex.manifests ∧
      (alookup c2Path r.disk).map lifecycleStatus = some (some "deprecated") ∧
      ∃ it ∈ r.topIndex.items, it.manifest_path = c2Path ∧ it.status = "deprecated") := by
  decide

/-- C6 (amended): in the top-level index of a completed run, the
ingestion-contract `manifests` list is strictly sorted (hence de-duplicated),
its length equals `counts.active_manifests`, every entry is a relative path
under `servers/` (never a URL or an absolute path), and every entry is the
destination of a manifest *written this run* with lifecycle status `active` —
a path is never added for a document whose written status was `deprecated` or
`disabled`.  The guarantee is about the status at the moment the path was
recorded: a later write of the same run can re-target a listed path (transport
aliasing followed by the deprecation pass), leaving a non-active document at
a listed path. -/
theorem claim_C6_ingestion_contract (ts src : String) (disk0 : List (String × Manifest))
    (harvested : List Manifest) :
    onOk (runSync ts src disk0 harvested) (fun r =>
      r.topIndex.counts_active_manifests = r.topIndex.manifests.length ∧
      strictSortedB r.topIndex.manifests = true ∧
      ∀ p ∈ r.topIndex.manifests,
        startsWithB "servers/" p = true ∧ startsWithB "http://" p = false ∧
        startsWithB "https://" p = false ∧ startsWithB "/" p = false ∧
        ∃ doc, WriteEvent.manifestFile p doc ∈ r.writes ∧ statusOrActive doc = "active") := by
  cases hrun : runSync ts src disk0 harvested with
  | error e => exact trivial
  | ok r =>
    dsimp only [onOk]
    obtain ⟨st1, hfold, hr⟩ := runSync_cases ts src disk0 harvested r hrun
    subst hr
    refine ⟨rfl, strictSortedB_sortDedup _, ?_⟩
    intro p hp
    have hp1 : p ∈ sortDedup ((existingByKey disk0).foldl (depStep ts src) st1).active := hp
    have hp2 := (mem_sortDedup p _).mp hp1
    rw [depFold_active ts src _ st1] at hp2
    rcases harvestFold_active ts src harvested _ st1 hfold p hp2 with h0 | ⟨hdest, doc, hw, hstat⟩
    · exact absurd h0 (List.not_mem_nil p)
    · obtain ⟨m', hm'⟩ := mem_destPaths harvested p hdest
      subst hm'
      have hsv := startsWithB_servers_destRel m'
      obtain ⟨hu1, hu2, hu3⟩ := startsWithB_servers_not_url _ hsv
      refine ⟨hsv, hu1, hu2, hu3, doc, ?_, hstat⟩
      have h4 : WriteEvent.manifestFile (destRelOf m') doc ∈
          ((existingByKey disk0).foldl (depStep ts src) st1).writes :=
        depFold_writes_mem ts src _ st1 _ hw
      exact List.mem_append_left _ h4

/-- C6 witness: the contract evaluated on a concrete completed run. -/
theorem claim_C6_witness :
    okAnd (runSync "T1" "SRC" [(c3Path, c3OldDoc)] [c3NewDoc]) (fun r =>
      r.topIndex.counts_active_manifests = r.topIndex.manifests.length ∧
      strictSortedB r.topIndex.manifests = true) := by
  have h := claim_C6_ingestion_contract "T1" "SRC" [(c3Path, c3OldDoc)] [c3NewDoc]
  have hok : isOkB (runSync "T1" "SRC" [(c3Path, c3OldDoc)] [c3NewDoc]) = true := by decide
  revert h hok
  cases runSync "T1" "SRC" [(c3Path, c3OldDoc)] [c3NewDoc] with
  | error e => intro h hok; exact absurd hok (by simp [isOkB])
  | ok r => intro h hok; exact ⟨h.1, h.2.1⟩

/-- C3 counterexample (transport aliasing): the on-disk entry `c36OldDoc` at
`c2Path` has key `(acme/widget, src/server, SSE)`, absent from a harvest that
yields the same repo/subpath with transport `STDIO` — a *different* key but
the *same* destination path, since paths ignore the transport.  The claim's
premises hold, yet its conclusions fail: the path is **included** in the
top-level `manifests` ingestion list, and the file at that path is not
`mark_deprecated` of the old document (the harvest loop overwrote it with the
new document, which the deprecation pass then marked deprecated). -/
theorem claim_C3_counterexample :
    (catalogKeyOf c36OldDoc, c2Path) ∈ existingByKey [(c2Path, c36OldDoc)] ∧
    catalogKeyOf c36OldDoc ∉ seenOf [c3NewDoc] ∧
    alookup c2Path [(c2Path, c36OldDoc)] = some c36OldDoc ∧
    c36OldDoc.type = some "mcp_server" ∧
    lifecycleStatus c36OldDoc ≠ some "disabled" ∧
    okAnd (runSync "T1" "SRC" [(c2Path, c36OldDoc)] [c3NewDoc]) (fun r =>
      c2Path ∈ r.topIndex.manifests ∧
      alookup c2Path r.disk ≠
        some (mark_deprecated "T1" ("Not found in latest harvest from " ++ "SRC") c36OldDoc) ∧
      (alookup c2Path r.disk).map lifecycleStatus = some (some "deprecated")) := by
  refine ⟨by decide, by decide, by decide, by decide, by decide, ?_⟩
  decide

/-- C3 (amended): an on-disk entry whose Identity Key is known from the prior
run but absent from the current harvest has its file rewritten in place
(still present on disk, never deleted) as `mark_deprecated` of the old
document — status `deprecated` (it was not `disabled`), a human-readable
reason naming the harvest source, a deprecation timestamp present, and
`harvest.seen_in_latest_run = false`; the entry appears in the top-level
`items` audit list with status `deprecated` and its path is excluded from the
top-level `manifests` ingestion list — **provided** the entry's file location
is not also the destination path of some manifest in the current harvest
(destination paths ignore the transport, so an entry whose transport alone
changed is aliased: the harvest loop writes the new document at the same path
and lists it in `manifests`, and the deprecation pass then rewrites that file
as `mark_deprecated` of the new document, not the old one) and the paths
recorded in the pre-run mapping are pairwise distinct (always true of a real
disk scan, where each file is visited once). -/
theorem claim_C3_deprecation (ts src : String) (disk0 : List (String × Manifest))
    (harvested : List Manifest) (key : CatalogKey) (p : String) (m : Manifest)
    (hmem : (key, p) ∈ existingByKey disk0)
    (hkey : key ∉ seenOf harvested)
    (hpath : p ∉ destPaths harvested)
    (hdisk : alookup p disk0 = some m)
    (htype : m.type = some "mcp_server")
    (hnodup : ((existingByKey disk0).map Prod.snd).Nodup)
    (hstatus : lifecycleStatus m ≠ some "disabled") :
    onOk (runSync ts src disk0 harvested) (fun r =>
      alookup p r.disk =
        some (mark_deprecated ts ("Not found in latest harvest from " ++ src) m) ∧
      lifecycleStatus (mark_deprecated ts ("Not found in latest harvest from " ++ src) m) =
        some "deprecated" ∧
      ((mark_deprecated ts ("Not found in latest harvest from " ++ src) m).lifecycle.getD
          {}).reason = some ("Not found in latest harvest from " ++ src) ∧
      ((mark_deprecated ts ("Not found in latest harvest from " ++ src) m).lifecycle.getD
          {}).deprecated_at.isSome = true ∧
      ((mark_deprecated ts ("Not found in latest harvest from " ++ src) m).harvest.getD
          {}).seen_in_latest_run = some false ∧
      (∃ it ∈ r.topIndex.items, it.manifest_path = p ∧ it.status = "deprecated") ∧
      p ∉ r.topIndex.manifests) := by
  unfold lifecycleStatus at hstatus
  have hdep : lifecycleStatus (mark_deprecated ts ("Not found in latest harvest from " ++ src) m)
        = some "deprecated" ∧
      ((mark_deprecated ts ("Not found in latest harvest from " ++ src) m).lifecycle.getD
          {}).reason = some ("Not found in latest harvest from " ++ src) ∧
      ((mark_deprecated ts ("Not found in latest harvest from " ++ src) m).lifecycle.getD
          {}).deprecated_at.isSome = true ∧
      ((mark_deprecated ts ("Not found in latest harvest from " ++ src) m).harvest.getD
          {}).seen_in_latest_run = some false := by
    refine ⟨?_, ?_, ?_, ?_⟩
    · unfold mark_deprecated lifecycleStatus
      dsimp only
      split_ifs <;> simp_all
    · unfold mark_deprecated
      dsimp only
      split_ifs <;> simp_all
    · unfold mark_deprecated
      dsimp only
      split_ifs <;> simp_all [Option.isSome_iff_ne_none]
    · unfold mark_deprecated
      dsimp only
      split_ifs <;> simp_all
  cases hrun : runSync ts src disk0 harvested with
  | error e => exact trivial
  | ok r =>
    dsimp only [onOk]
    obtain ⟨st1, hfold, hr⟩ := runSync_cases ts src disk0 harvested r hrun
    subst hr
    obtain ⟨E1, E2, hE⟩ := List.append_of_mem hmem
    rw [hE] at hnodup
    rw [List.map_append, List.map_cons] at hnodup
    rcases List.nodup_append.mp hnodup with ⟨h1, h2, hdisj⟩
    have hp2 : p ∉ E2.map Prod.snd := (List.nodup_cons.mp h2).1
    have hp1 : p ∉ E1.map Prod.snd := fun hmem1 => hdisj hmem1 (List.mem_cons_self p _)
    have hseen1 : st1.seen_keys = seenOf harvested := by
      have := harvestFold_seen ts src harvested _ st1 hfold
      simpa using this
    have hdisk1 : alookup p st1.disk = some m := by
      rw [harvestFold_disk ts src harvested _ st1 hfold p hpath]
      exact hdisk
    have hhit := depFold_hit ts src E1 E2 key p m st1 hp1 hp2
      (by rw [hseen1]; exact hkey) hdisk1 htype
    rw [← hE] at hhit
    obtain ⟨hdiskF, it, hitmem, hitp, hits⟩ := hhit
    refine ⟨hdiskF, hdep.1, hdep.2.1, hdep.2.2.1, hdep.2.2.2,
      ⟨it, (mem_stableSort itemLe it _).mpr hitmem, hitp, hits⟩, ?_⟩
    intro hpm
    have hpm1 : p ∈ sortDedup ((existingByKey disk0).foldl (depStep ts src) st1).active := hpm
    have hpm2 := (mem_sortDedup p _).mp hpm1
    rw [depFold_active ts src _ st1] at hpm2
    rcases harvestFold_active ts src harvested _ st1 hfold p hpm2 with h0 | ⟨hdest, _⟩
    · exact List.not_mem_nil p h0
    · exact hpath hdest

/-- C3 witness: the deprecation behavior on a concrete run in which the single
prior entry disappears from the harvest. -/
theorem claim_C3_witness :
    okAnd (runSync "T1" "SRC" [(c3Path, c3OldDoc)] [c3NewDoc]) (fun r =>
      alookup c3Path r.disk =
        some (mark_deprecated "T1" ("Not found in latest harvest from " ++ "SRC") c3OldDoc) ∧
      c3Path ∉ r.topIndex.manifests) := by
  have h := claim_C3_deprecation "T1" "SRC" [(c3Path, c3OldDoc)] [c3NewDoc]
    (catalogKeyOf c3OldDoc) c3Path c3OldDoc
    (by decide) (by decide) (by decide) (by decide) (by decide) (by decide) (by decide)
  have hok : isOkB (runSync "T1" "SRC" [(c3Path, c3OldDoc)] [c3NewDoc]) = true := by decide
  revert h hok
  cases runSync "T1" "SRC" [(c3Path, c3OldDoc)] [c3NewDoc] with
  | error e => intro h hok; exact absurd hok (by simp [isOkB])
  | ok r => intro h hok; exact ⟨h.1, h.2.2.2.2.2.2⟩

end CatalogSync
